import Mathlib

/-!
Verification development for the ArbIntel odds-intelligence engine
(`arb-intel/backend/app`).  The Python sources are shallowly embedded:
`float` arithmetic is modelled by `ℚ`, Python's `round` (banker's
rounding) by `pyRound`, and fallible functions (raising `ValueError` /
`ZeroDivisionError`) by `Except PyErr`.
-/

namespace ArbIntel

attribute [local semireducible] Rat.add Rat.mul Rat.sub Rat.inv Rat.ofScientific

/-- Kinds of Python exceptions raised by the embedded code. -/
inductive PyErr where
  | valueError
  | zeroDivisionError
deriving DecidableEq, Repr

instance {ε α : Type} [DecidableEq ε] [DecidableEq α] :
    DecidableEq (Except ε α) := fun a b =>
  match a, b with
  | .ok x, .ok y =>
    if h : x = y then isTrue (by rw [h])
    else isFalse (fun he => h (Except.ok.inj he))
  | .error x, .error y =>
    if h : x = y then isTrue (by rw [h])
    else isFalse (fun he => h (Except.error.inj he))
  | .ok _, .error _ => isFalse (fun he => Except.noConfusion he)
  | .error _, .ok _ => isFalse (fun he => Except.noConfusion he)

/-- Python 3 `round(x)`: round half to even (banker's rounding). -/
def pyRound (x : ℚ) : ℤ :=
  if x - (⌊x⌋ : ℚ) < 1 / 2 then ⌊x⌋
  else if 1 / 2 < x - (⌊x⌋ : ℚ) then ⌊x⌋ + 1
  else if ⌊x⌋ % 2 = 0 then ⌊x⌋ else ⌊x⌋ + 1

/-- Python `round(x, 2)`. -/
def round2 (x : ℚ) : ℚ := (pyRound (100 * x) : ℚ) / 100

/-- Python `round(x, 4)`. -/
def round4 (x : ℚ) : ℚ := (pyRound (10000 * x) : ℚ) / 10000

/-- `app/utils/odds.py`, `american_to_decimal`: positive odds give
`1 + a/100`, otherwise `1 + 100/abs(a)`; at `a = 0` Python raises
`ZeroDivisionError`. -/
def americanToDecimal (a : ℚ) : Except PyErr ℚ :=
  if 0 < a then .ok (1 + a / 100)
  else if a = 0 then .error .zeroDivisionError
  else .ok (1 + 100 / |a|)

/-- `app/utils/odds.py`, `decimal_to_american`: `d ≥ 2` gives
`round((d-1)*100)`, otherwise `round(-100/(d-1))`; at `d = 1` Python
raises `ZeroDivisionError`. -/
def decimalToAmerican (d : ℚ) : Except PyErr ℤ :=
  if 2 ≤ d then .ok (pyRound ((d - 1) * 100))
  else if d = 1 then .error .zeroDivisionError
  else .ok (pyRound (-100 / (d - 1)))

/-- `app/utils/odds.py`, `decimal_to_probability`: `1/d`, with no
validation; only `d = 0` raises (`ZeroDivisionError`). -/
def decimalToProbability (d : ℚ) : Except PyErr ℚ :=
  if d = 0 then .error .zeroDivisionError else .ok (1 / d)

/-- `app/utils/odds.py`, `probability_to_decimal`: raises `ValueError`
unless `0 < p < 1`. -/
def probabilityToDecimal (p : ℚ) : Except PyErr ℚ :=
  if p ≤ 0 ∨ 1 ≤ p then .error .valueError else .ok (1 / p)

/-- Composition `decimal_to_american(american_to_decimal(a))` used by the
round-trip property. -/
def roundTripAmerican (a : ℚ) : Except PyErr ℤ :=
  americanToDecimal a >>= decimalToAmerican

/-- `app/core/math.py`, `calculate_implied_probability`: raises
`ValueError` on `d ≤ 1`, else returns `1/d`. -/
def calculateImpliedProbability (d : ℚ) : Except PyErr ℚ :=
  if d ≤ 1 then .error .valueError else .ok (1 / d)

/-- The list comprehension
`[calculate_implied_probability(o) for o in odds]`: stops at the first
odds value that raises. -/
def mapImplied : List ℚ → Except PyErr (List ℚ)
  | [] => .ok []
  | o :: rest => do
    let p ← calculateImpliedProbability o
    let ps ← mapImplied rest
    pure (p :: ps)

/-- `app/core/math.py`, `ArbitrageResult`. -/
structure ArbitrageResult where
  is_arbitrage : Bool
  profit_pct : ℚ
  implied_prob_sum : ℚ
  margin : ℚ
deriving DecidableEq, Repr

/-- `app/core/math.py`, `detect_arbitrage`. -/
def detectArbitrage (odds : List ℚ) (totalFeePct : ℚ) :
    Except PyErr ArbitrageResult :=
  if odds.length < 2 then .error .valueError
  else do
    let probs ← mapImplied odds
    let probSum := probs.sum
    let threshold := 1 - totalFeePct / 100
    let isArb := decide (probSum < threshold)
    let margin := threshold - probSum
    let profitPct := if probSum < threshold then margin * 100 else 0
    pure ⟨isArb, profitPct, probSum, margin⟩

/-- `app/core/math.py`, `calculate_ev_pct`. -/
def calculateEvPct (d p fee : ℚ) : ℚ := (p * d - 1) * 100 - fee

/-- `app/core/math.py`, `calculate_kelly_fraction`. -/
def calculateKellyFraction (d p fee : ℚ) : ℚ :=
  let effectiveOdds := d * (1 - fee / 100)
  let b := effectiveOdds - 1
  if b ≤ 0 then 0
  else max 0 ((p * (b + 1) - 1) / b)

/-- `app/core/sizing.py`, `StakeSizing`. -/
structure StakeSizing where
  stakes : List ℚ
  total_stake : ℚ
  guaranteed_cashout : ℚ
  guaranteed_profit : ℚ
  profit_pct : ℚ
deriving DecidableEq, Repr

/-- Python `min(list)` (list is nonempty at every call site). -/
def listMin : List ℚ → ℚ
  | [] => 0
  | h :: t => t.foldl min h

/-- The tail of `calculate_stakes` after the stakes list is fixed:
cashouts, fees, guaranteed profit and the rounded result record. -/
def mkStakeSizing (odds stakes : List ℚ) (feePct : ℚ) : StakeSizing :=
  let totalStake := stakes.sum
  let cashouts := List.zipWith (· * ·) stakes odds
  let guaranteedCashout := listMin cashouts
  let fees := totalStake * (feePct / 100)
  let guaranteedProfit := guaranteedCashout - totalStake - fees
  let profitPct := if 0 < totalStake then guaranteedProfit / totalStake * 100 else 0
  ⟨stakes, totalStake, round2 guaranteedCashout, round2 guaranteedProfit,
    round4 profitPct⟩

/-- `app/core/sizing.py`, `calculate_stakes`: proportional stakes rounded
to cents, rescaled (and re-rounded) when their sum exceeds the capital.
The rescale divides by `sum(stakes)`, which raises `ZeroDivisionError`
when that sum is zero (only reachable for negative capital). -/
def calculateStakes (odds : List ℚ) (totalCapital feePct : ℚ) :
    Except PyErr StakeSizing :=
  if odds.length < 2 then .error .valueError
  else do
    let probs ← mapImplied odds
    let probSum := probs.sum
    let stakes := probs.map (fun p => round2 (totalCapital * p / probSum))
    let totalStake := stakes.sum
    if totalCapital < totalStake then
      if totalStake = 0 then .error .zeroDivisionError
      else
        let scale := totalCapital / totalStake
        pure (mkStakeSizing odds (stakes.map (fun s => round2 (s * scale))) feePct)
    else pure (mkStakeSizing odds stakes feePct)

/-- Spec-side arbitrage predicate data (`spec.md` §4.2): implied sum. -/
def impliedSum (odds : List ℚ) : ℚ := (odds.map (fun o => 1 / o)).sum

/-- Spec-side threshold `1 - f/100`. -/
def specThreshold (fee : ℚ) : ℚ := 1 - fee / 100

/-- The arbitrage result described by the spec's words, for comparison
with `detectArbitrage`. -/
def specArbitrageResult (odds : List ℚ) (fee : ℚ) : ArbitrageResult :=
  { is_arbitrage := decide (impliedSum odds < specThreshold fee)
  , profit_pct :=
      if impliedSum odds < specThreshold fee then
        (specThreshold fee - impliedSum odds) * 100
      else 0
  , implied_prob_sum := impliedSum odds
  , margin := specThreshold fee - impliedSum odds }

/-- Sum of the stakes of a sizing result (`0` for an exception). -/
def stakesSumOf (e : Except PyErr StakeSizing) : ℚ :=
  match e with
  | .ok r => r.stakes.sum
  | .error _ => 0

/-- Whether an `Except` value is a normal return. -/
def isOkE {α : Type} (e : Except PyErr α) : Bool :=
  match e with
  | .ok _ => true
  | .error _ => false

/-! ### Data model (`app/core/models.py`)

`datetime` timestamps are modelled as integers (only their ordering and
differences are used); Python strings are ASCII here. -/

structure Outcome where
  name : String
  odds_decimal : ℚ
  venue : String
  liquidity : Option ℚ
  timestamp : ℤ
deriving DecidableEq, Repr

structure Market where
  event_id : String
  sport : String
  event_name : String
  market_type : String
  outcomes : List Outcome
  start_time : Option ℤ
deriving DecidableEq, Repr

def defaultOutcome : Outcome := ⟨"", 2, "", none, 0⟩

def defaultMarket : Market := ⟨"", "", "", "", [], none⟩

/-! ### String utilities shared by the matcher -/

/-- Python `str.lower` (ASCII; `Char.toLower` maps only `A`-`Z`). -/
def pyLower (s : String) : String := String.mk (s.toList.map Char.toLower)

/-- Python `str.strip`. -/
def pyStrip (s : String) : String :=
  String.mk
    (((s.toList.dropWhile Char.isWhitespace).reverse.dropWhile
      Char.isWhitespace).reverse)

/-- `needle` occurs at the start of `hay`. -/
def startsList : List Char → List Char → Bool
  | [], _ => true
  | _ :: _, [] => false
  | a :: as, b :: bs => a == b && startsList as bs

/-- Python `needle in hay` for strings: contiguous substring test. -/
def subList (needle : List Char) : List Char → Bool
  | [] => needle.isEmpty
  | h :: t => startsList needle (h :: t) || subList needle t

/-- Split on whitespace runs, dropping empty pieces (Python `str.split()`). -/
def splitWsAux : List Char → List Char → List String
  | [], acc => if acc.isEmpty then [] else [String.mk acc.reverse]
  | c :: t, acc =>
    if c.isWhitespace then
      if acc.isEmpty then splitWsAux t []
      else String.mk acc.reverse :: splitWsAux t []
    else splitWsAux t (c :: acc)

def splitWs (l : List Char) : List String := splitWsAux l []

/-- `matcher.normalize_text` step 2: the anchored
`re.sub(r'^(will |who will |what will |which )', '', text)` tries the
alternatives left to right at position 0. -/
def stripLeading (l : List Char) : List Char :=
  if startsList "will ".toList l then l.drop 5
  else if startsList "who will ".toList l then l.drop 9
  else if startsList "what will ".toList l then l.drop 10
  else if startsList "which ".toList l then l.drop 6
  else l

/-- Characters kept by `re.sub(r'[^\w\s\d\-]', ' ', text)` (ASCII). -/
def isKeptChar (c : Char) : Bool :=
  c.isAlphanum || c == '_' || c == '-' || c.isWhitespace

/-- `matcher.normalize_text`: lowercase, strip a leading question word,
replace punctuation by spaces, collapse whitespace. -/
def normalizeText (s : String) : String :=
  let l := (pyLower s).toList
  let l := stripLeading l
  let l := l.map (fun c => if isKeptChar c then c else ' ')
  String.intercalate " " (splitWs l)

def wordsOf (s : String) : List String := splitWs s.toList

/-! ### `difflib.SequenceMatcher` (as used by `calculate_similarity`)

`SequenceMatcher(None, a, b).ratio()` with `isjunk = None`; the inputs
are far below 200 characters, so the popular-element "autojunk"
heuristic never fires and the junk machinery is inactive. -/

/-- Map each character of `b` to the ascending list of its indices. -/
def b2jAdd (m : List (Char × List ℕ)) (c : Char) (i : ℕ) :
    List (Char × List ℕ) :=
  match m with
  | [] => [(c, [i])]
  | (c', l) :: rest =>
    if c' == c then (c', l ++ [i]) :: rest else (c', l) :: b2jAdd rest c i

def b2jBuild (b : List Char) : List (Char × List ℕ) :=
  b.enum.foldl (fun m p => b2jAdd m p.2 p.1) []

def b2jGet (m : List (Char × List ℕ)) (c : Char) : List ℕ :=
  match m.find? (fun p => p.1 == c) with
  | some p => p.2
  | none => []

def lookup0 (l : List (ℕ × ℕ)) (k : ℕ) : ℕ :=
  match l.find? (fun p => p.1 == k) with
  | some p => p.2
  | none => 0

/-- One row of `find_longest_match`'s dynamic program: walk the ascending
index list of `a[i]` in `b`, skipping `j < blo`, stopping at `j ≥ bhi`,
extending runs via the previous row and recording strictly longer runs. -/
def flmRow (prev : List (ℕ × ℕ)) (blo bhi i : ℕ) :
    List ℕ → List (ℕ × ℕ) → ℕ × ℕ × ℕ → List (ℕ × ℕ) × (ℕ × ℕ × ℕ)
  | [], news, best => (news, best)
  | j :: js, news, best =>
    if j < blo then flmRow prev blo bhi i js news best
    else if bhi ≤ j then (news, best)
    else
      let k := (if j = 0 then 0 else lookup0 prev (j - 1)) + 1
      let best' := if best.2.2 < k then (i + 1 - k, j + 1 - k, k) else best
      flmRow prev blo bhi i js ((j, k) :: news) best'

def flmCore (a : List Char) (bj : List (Char × List ℕ))
    (alo ahi blo bhi : ℕ) : ℕ × ℕ × ℕ :=
  ((List.range' alo (ahi - alo)).foldl
    (fun st i =>
      flmRow st.1 blo bhi i (b2jGet bj (a.getD i (Char.ofNat 0))) [] st.2)
    ([], (alo, blo, 0))).2

/-- The backward extension loop of `find_longest_match` (a no-op when the
dynamic program already found a maximal block, kept for faithfulness). -/
def extLow (a b : List Char) (alo blo : ℕ) : ℕ → ℕ × ℕ × ℕ → ℕ × ℕ × ℕ
  | 0, st => st
  | fuel + 1, (i, j, k) =>
    if decide (alo < i) && decide (blo < j) &&
        (a.getD (i - 1) (Char.ofNat 0) == b.getD (j - 1) (Char.ofNat 1)) then
      extLow a b alo blo fuel (i - 1, j - 1, k + 1)
    else (i, j, k)

/-- The forward extension loop of `find_longest_match`. -/
def extHigh (a b : List Char) (ahi bhi : ℕ) : ℕ → ℕ × ℕ × ℕ → ℕ × ℕ × ℕ
  | 0, st => st
  | fuel + 1, (i, j, k) =>
    if decide (i + k < ahi) && decide (j + k < bhi) &&
        (a.getD (i + k) (Char.ofNat 0) == b.getD (j + k) (Char.ofNat 1)) then
      extHigh a b ahi bhi fuel (i, j, k + 1)
    else (i, j, k)

def findLongestMatch (a b : List Char) (alo ahi blo bhi : ℕ) : ℕ × ℕ × ℕ :=
  let best := flmCore a (b2jBuild b) alo ahi blo bhi
  let best := extLow a b alo blo best.1 best
  extHigh a b ahi bhi ahi best

/-- Total size of the matching blocks of `get_matching_blocks` (the
queue-based decomposition; only the summed sizes matter for `ratio`).
The fuel dominates the recursion depth, which is at most the length of
the `a`-window plus one. -/
def matchedSize (a b : List Char) : ℕ → ℕ × ℕ × ℕ × ℕ → ℕ
  | 0, _ => 0
  | fuel + 1, (alo, ahi, blo, bhi) =>
    let r := findLongestMatch a b alo ahi blo bhi
    if r.2.2 = 0 then 0
    else
      r.2.2 + matchedSize a b fuel (alo, r.1, blo, r.2.1) +
        matchedSize a b fuel (r.1 + r.2.2, ahi, r.2.1 + r.2.2, bhi)

def seqMatchTotal (a b : List Char) : ℕ :=
  matchedSize a b (a.length + 1) (0, a.length, 0, b.length)

/-- `SequenceMatcher.ratio()`: `2·M / (|a| + |b|)`, `1.0` on two empty
sequences. -/
def seqMatchScore (a b : List Char) : ℚ :=
  if a.length + b.length = 0 then 1
  else 2 * (seqMatchTotal a b : ℚ) / ((a.length : ℚ) + (b.length : ℚ))

/-! ### Entity extraction and similarity (`app/core/matcher.py`) -/

def politicians : List String :=
  ["trump", "biden", "vance", "desantis", "harris", "obama",
   "pence", "haley", "ramaswamy", "newsom", "ocasio-cortez", "aoc",
   "rubio", "cruz", "sanders", "warren", "pelosi", "mcconnell",
   "buttigieg", "booker", "klobuchar", "yang", "gabbard"]

def politicalTerms : List String :=
  ["president", "presidential", "election", "nomination", "nominee",
   "republican", "democrat", "gop", "dnc", "rnc",
   "senate", "house", "congress", "governor",
   "primary", "caucus", "midterm"]

def economicTerms : List String :=
  ["fed", "federal reserve", "interest rate", "rates", "bps",
   "inflation", "gdp", "recession", "tariff"]

def eventTerms : List String :=
  ["super bowl", "world series", "nba finals", "stanley cup",
   "oscars", "grammy", "emmy", "golden globe",
   "greenland", "ukraine", "russia", "china", "taiwan"]

/-- `re.findall(r'20\d{2}', text)`: non-overlapping left-to-right scan
(the fuel, instantiated with the text length, bounds the scan). -/
def findYearsAux : ℕ → List Char → List String
  | 0, _ => []
  | _, [] => []
  | fuel + 1, c0 :: rest0 =>
    match c0, rest0 with
    | '2', '0' :: c :: d :: rest =>
      if c.isDigit && d.isDigit then
        String.mk ['2', '0', c, d] :: findYearsAux fuel rest
      else findYearsAux fuel rest0
    | _, _ => findYearsAux fuel rest0

def findYears (l : List Char) : List String := findYearsAux l.length l

def underscored (s : String) : String :=
  String.mk (s.toList.map (fun c => if c == ' ' then '_' else c))

/-- `matcher.extract_entities`: substring search against the fixed
lexicons on the lowercased text, years from the original text; the
result is a Python `set`. -/
def extractEntities (text : String) : Finset String :=
  let tl := (pyLower text).toList
  let pols := politicians.filter (fun p => subList p.toList tl)
  let years := findYears text.toList
  let pterms := politicalTerms.filter (fun p => subList p.toList tl)
  let eterms := (economicTerms.filter (fun p => subList p.toList tl)).map underscored
  let evs := (eventTerms.filter (fun p => subList p.toList tl)).map underscored
  (pols ++ years ++ pterms ++ eterms ++ evs).toFinset

/-- Jaccard score with Python's truthiness guards
(`if entities1 and entities2: ... if union > 0 else 0`). -/
def jaccardScore (s t : Finset String) : ℚ :=
  if s.card = 0 then 0
  else if t.card = 0 then 0
  else if 0 < (s ∪ t).card then ((s ∩ t).card : ℚ) / ((s ∪ t).card : ℚ)
  else 0

/-- `matcher.calculate_similarity`: `0.5·entity + 0.3·word + 0.2·string`. -/
def calculateSimilarity (t1 t2 : String) : ℚ :=
  let n1 := normalizeText t1
  let n2 := normalizeText t2
  let stringSim := seqMatchScore n1.toList n2.toList
  let entitySim := jaccardScore (extractEntities t1) (extractEntities t2)
  let wordSim := jaccardScore (wordsOf n1).toFinset (wordsOf n2).toFinset
  entitySim * (1 / 2) + wordSim * (3 / 10) + stringSim * (1 / 5)

/-! ### Category and outcome compatibility (`app/core/matcher.py`) -/

def catGroups : List (String × List String) :=
  [("politics", ["politics", "political", "election", "elections",
     "us-politics", "government", "congress", "senate", "presidential",
     "vote", "voting", "president", "governor", "mayor"]),
   ("sports", ["sports", "nfl", "nba", "mlb", "nhl", "soccer", "football",
     "basketball", "baseball", "hockey", "tennis", "golf", "mma", "ufc",
     "boxing", "champions-league", "premier-league", "world-cup",
     "super-bowl"]),
   ("crypto", ["crypto", "cryptocurrency", "bitcoin", "ethereum", "btc",
     "eth", "defi"]),
   ("tech", ["tech", "technology", "ai", "artificial-intelligence",
     "science", "space", "prediction"]),
   ("economics", ["economics", "economy", "finance", "financial",
     "stocks", "markets", "fed", "federal-reserve", "inflation", "gdp"]),
   ("entertainment", ["entertainment", "movies", "tv", "music", "oscars",
     "awards"]),
   ("world", ["world", "international", "geopolitics", "war", "conflict"])]

/-- `matcher.normalize_category`: lowercase, `_`/space to `-`, then first
group (in dict order) with a variant-containment hit, else `other`. -/
def normalizeCategory (c : String) : String :=
  let cl := (pyLower c).toList.map
    (fun ch => if ch == '_' || ch == ' ' then '-' else ch)
  match catGroups.find?
      (fun g => g.2.any (fun v => subList v.toList cl || subList cl v.toList)) with
  | some g => g.1
  | none => "other"

def predictionBuckets : List String := ["tech", "politics", "world", "economics"]

/-- `matcher.categories_match`. -/
def categoriesMatch (c1 c2 : String) : Bool :=
  let n1 := normalizeCategory c1
  let n2 := normalizeCategory c2
  if n1 == "tech" || n2 == "tech" then
    predictionBuckets.contains n1 && predictionBuckets.contains n2
  else n1 == n2

def lowerNames (m : Market) : List String :=
  m.outcomes.map (fun o => pyLower o.name)

/-- `outcomes1 <= {"yes","no"}` (the `==` test is subsumed). -/
def isBinaryNames (names : List String) : Bool :=
  names.all (fun s => s == "yes" || s == "no")

/-- `matcher.outcomes_compatible`. -/
def outcomesCompatible (m1 m2 : Market) : Bool :=
  let o1 := lowerNames m1
  let o2 := lowerNames m2
  let b1 := isBinaryNames o1
  let b2 := isBinaryNames o2
  if b1 && b2 then true
  else if b1 != b2 then false
  else o1.any (fun x => o2.any
    (fun y => subList x.toList y.toList || subList y.toList x.toList))

/-- `venues1 & venues2` nonempty in `markets_match`. -/
def venuesOverlap (m1 m2 : Market) : Bool :=
  m1.outcomes.any (fun o => m2.outcomes.any (fun p => o.venue == p.venue))

/-- `matcher.markets_match` (default `threshold = 0.45`). -/
def marketsMatch (m1 m2 : Market) (threshold : ℚ) : Bool :=
  if venuesOverlap m1 m2 then false
  else if !(categoriesMatch m1.sport m2.sport) then false
  else if !(outcomesCompatible m1 m2) then false
  else decide (threshold ≤ calculateSimilarity m1.event_name m2.event_name)

/-! ### Grouping (`matcher.find_matching_markets`)

Markets are tracked by their index in the input list; Python tracks the
corresponding objects by `id()`, which is in bijection with positions
for a list of distinct objects. -/

def getM (ms : List Market) (i : ℕ) : Market := ms.getD i defaultMarket

/-- `groups[event_id].append(market)` with insertion-ordered keys. -/
def addToGroups (g : List (String × List ℕ)) (k : String) (i : ℕ) :
    List (String × List ℕ) :=
  match g with
  | [] => [(k, [i])]
  | (k', l) :: rest =>
    if k' == k then (k', l ++ [i]) :: rest
    else (k', l) :: addToGroups rest k i

def buildFold (ms : List Market) : List ℕ → List (String × List ℕ) →
    List (String × List ℕ)
  | [], acc => acc
  | i :: is, acc => buildFold ms is (addToGroups acc (getM ms i).event_id i)

/-- The initial grouping of markets by their original `event_id`. -/
def buildGroups (ms : List Market) : List (String × List ℕ) :=
  buildFold ms (List.range ms.length) []

/-- The inner `for j, market2 in enumerate(market_list)` loop: add `j` to
the current group if it is unclaimed, after `i`, and matches a member. -/
def growGroup (ms : List Market) (thr : ℚ) (i : ℕ) :
    List ℕ → List ℕ → List ℕ → List ℕ × List ℕ
  | [], current, matched => (current, matched)
  | j :: js, current, matched =>
    if matched.contains j then growGroup ms thr i js current matched
    else if j ≤ i then growGroup ms thr i js current matched
    else if current.any (fun m => marketsMatch (getM ms m) (getM ms j) thr) then
      growGroup ms thr i js (current ++ [j]) (matched ++ [j])
    else growGroup ms thr i js current matched

/-- The outer `for i, market1 in enumerate(market_list)` loop, collecting
groups of size `> 1`. -/
def mergePass (ms : List Market) (thr : ℚ) :
    List ℕ → List ℕ → List (List ℕ) → List (List ℕ)
  | [], _, acc => acc
  | i :: is, matched, acc =>
    if matched.contains i then mergePass ms thr is matched acc
    else
      let res := growGroup ms thr i (List.range ms.length) [i] (matched ++ [i])
      if 1 < res.1.length then mergePass ms thr is res.2 (acc ++ [res.1])
      else mergePass ms thr is res.2 acc

def mergedGroups (ms : List Market) (thr : ℚ) : List (List ℕ) :=
  mergePass ms thr (List.range ms.length) [] []

/-- Python dict assignment: overwrite in place, append new keys. -/
def dictInsert (d : List (String × List ℕ)) (k : String) (v : List ℕ) :
    List (String × List ℕ) :=
  match d with
  | [] => [(k, v)]
  | (k', v') :: rest =>
    if k' == k then (k', v) :: rest else (k', v') :: dictInsert rest k v

def dictGet : List (String × List ℕ) → String → Option (List ℕ)
  | [], _ => none
  | (k', v) :: rest, k => if k' == k then some v else dictGet rest k

/-- All venues appearing in a group of markets (as a deduplicated list;
Python builds a `set`). -/
def groupVenues (ms : List Market) (g : List ℕ) : List String :=
  ((g.map (getM ms)).flatMap (fun m => m.outcomes.map (fun o => o.venue))).dedup

/-- Python `max(markets, key=len(event_name))`: first maximal element. -/
def pyMaxByNameLen : Market → List Market → Market
  | best, [] => best
  | best, m :: rest =>
    pyMaxByNameLen
      (if best.event_name.length < m.event_name.length then m else best) rest

/-- `matcher.create_canonical_event_id`. -/
def canonicalEventId : List Market → String
  | [] => "matched_"
  | m :: rest =>
    let best := pyMaxByNameLen m rest
    "matched_" ++
      String.intercalate "_" ((wordsOf (normalizeText best.event_name)).take 5)

def intersects (a b : List ℕ) : Bool := a.any (fun x => b.contains x)

/-- The first result loop: publish merged groups spanning `> 1` venues
under their canonical ids. -/
def emitMerged (ms : List Market) : List (List ℕ) → List (String × List ℕ) →
    List (String × List ℕ)
  | [], d => d
  | g :: rest, d =>
    if 1 < (groupVenues ms g).length then
      emitMerged ms rest (dictInsert d (canonicalEventId (g.map (getM ms))) g)
    else emitMerged ms rest d

/-- The second result loop: emit each original `event_id` group unless one
of its markets was claimed by a merged group. -/
def emitOriginals (merged : List (List ℕ)) :
    List (String × List ℕ) → List (String × List ℕ) → List (String × List ℕ)
  | [], d => d
  | p :: rest, d =>
    if merged.any (fun g => intersects p.2 g) then emitOriginals merged rest d
    else emitOriginals merged rest (dictInsert d p.1 p.2)

/-- `matcher.find_matching_markets` over market indices. -/
def findMatchingMarkets (ms : List Market) (thr : ℚ) :
    List (String × List ℕ) :=
  emitOriginals (mergedGroups ms thr) (buildGroups ms)
    (emitMerged ms (mergedGroups ms thr) [])

/-! ### Best-odds selection (`app/engine/arbitrage.py`, lines 49-68) -/

/-- Python `max(outcomes, key=lambda x: x.odds_decimal)`: keeps the first
element on ties, replaces only on strict improvement. -/
def pyMaxByOdds : Outcome → List Outcome → Outcome
  | best, [] => best
  | best, o :: rest =>
    pyMaxByOdds (if best.odds_decimal < o.odds_decimal then o else best) rest

def addOutcome (d : List (String × List Outcome)) (k : String) (o : Outcome) :
    List (String × List Outcome) :=
  match d with
  | [] => [(k, [o])]
  | (k', l) :: rest =>
    if k' == k then (k', l ++ [o]) :: rest
    else (k', l) :: addOutcome rest k o

/-- `outcomes_by_name`: lowercase-keyed multimap over all outcomes of the
group's markets, in market order then outcome order. -/
def outcomesByName (markets : List Market) : List (String × List Outcome) :=
  markets.foldl
    (fun d m => m.outcomes.foldl (fun d o => addOutcome d (pyLower o.name) o) d)
    []

/-- The per-name best-odds choice of `find_arbitrage_opportunities`. -/
def bestOutcomeFor (markets : List Market) (name : String) : Option Outcome :=
  match (outcomesByName markets).find? (fun p => p.1 == name) with
  | some p =>
    match p.2 with
    | o :: rest => some (pyMaxByOdds o rest)
    | [] => none
  | none => none

/-! ### Fees (`app/core/fees.py`) and configuration -/

structure VenueFees where
  venue : String
  trading_fee_pct : ℚ
  settlement_fee : ℚ
  withdrawal_fee : ℚ
deriving DecidableEq, Repr

/-- `fees.get_venue_fees`: the static `VENUE_FEES` table with the
`default` fallback (1% trading fee). -/
def getVenueFees (venue : String) : VenueFees :=
  let v := pyStrip (pyLower venue)
  if v == "polymarket" then ⟨"polymarket", 0, 0, 0⟩
  else if v == "kalshi" then ⟨"kalshi", 0, 0, 0⟩
  else if v == "manifold" then ⟨"manifold", 0, 0, 0⟩
  else if v == "betfair" then ⟨"betfair", 2, 0, 0⟩
  else if v == "draftkings" then ⟨"draftkings", 0, 0, 0⟩
  else if v == "fanduel" then ⟨"fanduel", 0, 0, 0⟩
  else if v == "betmgm" then ⟨"betmgm", 0, 0, 0⟩
  else ⟨"default", 1, 0, 0⟩

/-- Modelled from the spec: `app/config.py` is not in the source tree;
`spec.md` §6 lists `MIN_EV_PCT` with default `3.0`. -/
def MIN_EV_PCT : ℚ := 3

/-- Modelled from the spec: `app/config.py` is not in the source tree;
`spec.md` §6 lists `DEFAULT_STAKE_USD` with default `1000`. -/
def DEFAULT_STAKE_USD : ℚ := 1000

/-! ### EV engine (`app/engine/ev.py`) -/

def PROBABILITY_ANCHORS : List String :=
  ["polymarket", "kalshi", "manifold", "betfair"]

structure BetInstruction where
  venue : String
  outcome : String
  stake_usd : ℚ
  odds_decimal : ℚ
  odds_american : String
  potential_payout : ℚ
deriving DecidableEq, Repr

/-- `Opportunity` (without `detected_at`, which is a wall-clock default
not referenced by any claim). -/
structure Opportunity where
  type : String
  event_id : String
  event_name : String
  market_type : String
  expected_profit_pct : ℚ
  expected_profit_usd : ℚ
  total_stake : ℚ
  instructions : List BetInstruction
  fees_usd : ℚ
  risk : String
  expires_in_seconds : ℤ
deriving DecidableEq, Repr

/-- `utils/odds.format_american_odds`. -/
def formatAmericanOdds (a : ℤ) : String :=
  if 0 < a then "+" ++ toString a else toString a

/-- `format_american_odds(decimal_to_american(d))`; the error case is
unreachable for outcome odds, which satisfy `d > 1`. -/
def americanStr (d : ℚ) : String :=
  match decimalToAmerican d with
  | .ok z => formatAmericanOdds z
  | .error _ => ""

/-- `utils/time.estimate_expiry_seconds` with `utc_now()` passed
explicitly as `now`. -/
def estimateExpirySeconds (now lastUpdate : ℤ) : ℤ :=
  max 0 (60 - (now - lastUpdate))

def strDictInsert (d : List (String × ℚ)) (k : String) (v : ℚ) :
    List (String × ℚ) :=
  match d with
  | [] => [(k, v)]
  | (k', v') :: rest =>
    if k' == k then (k', v) :: rest else (k', v') :: strDictInsert rest k v

def strDictGet (d : List (String × ℚ)) (k : String) : Option ℚ :=
  match d.find? (fun p => p.1 == k) with
  | some p => some p.2
  | none => none

/-- `m.outcomes[0].venue` (markets have at least one outcome). -/
def firstOutcomeVenue (m : Market) : String :=
  (m.outcomes.headD defaultOutcome).venue

/-- `true_probs[name.lower()] = decimal_to_probability(odds)` over the
anchor's outcomes (`1/d`; anchor odds satisfy `d > 1`). -/
def anchorProbs (anchor : Market) : List (String × ℚ) :=
  anchor.outcomes.foldl
    (fun d o => strDictInsert d (pyLower o.name) (1 / o.odds_decimal)) []

/-- The body of the per-outcome loop of `find_ev_opportunities`. -/
def evOppsForOutcome (now : ℤ) (minEv stake : ℚ) (eid : String)
    (market : Market) (tps : List (String × ℚ)) (o : Outcome) :
    List Opportunity :=
  match strDictGet tps (pyLower o.name) with
  | none => []
  | some trueProb =>
    let feePct := (getVenueFees o.venue).trading_fee_pct
    let evPct := calculateEvPct o.odds_decimal trueProb feePct
    if minEv ≤ evPct then
      let kelly := calculateKellyFraction o.odds_decimal trueProb feePct
      let recommendedStake := round2 (min stake (stake * kelly * (1 / 4)))
      let instr : BetInstruction :=
        ⟨o.venue, o.name, recommendedStake, o.odds_decimal,
          americanStr o.odds_decimal, round2 (recommendedStake * o.odds_decimal)⟩
      let expectedProfit := recommendedStake * (evPct / 100)
      let risk := if (5 : ℚ) ≤ evPct then "MEDIUM" else "HIGH"
      [⟨"EV", eid, market.event_name, market.market_type, round4 evPct,
        round2 expectedProfit, recommendedStake, [instr],
        round2 (recommendedStake * feePct / 100), risk,
        estimateExpirySeconds now o.timestamp⟩]
    else []

/-- `ev.find_ev_opportunities` (with the wall clock as a parameter). -/
def findEvOpportunities (now : ℤ) (groups : List (String × List Market))
    (minEv stake : ℚ) : List Opportunity :=
  groups.foldl
    (fun acc p =>
      let anchors := p.2.filter
        (fun m => PROBABILITY_ANCHORS.contains (firstOutcomeVenue m))
      let betting := p.2.filter
        (fun m => !(PROBABILITY_ANCHORS.contains (firstOutcomeVenue m)))
      match anchors with
      | [] => acc
      | anchor :: _ =>
        if betting.isEmpty then acc
        else
          let tps := anchorProbs anchor
          acc ++ betting.foldl
            (fun acc2 market =>
              acc2 ++ market.outcomes.foldl
                (fun acc3 o =>
                  acc3 ++ evOppsForOutcome now minEv stake p.1 market tps o)
                [])
            [])
    []

/-! ### Concrete scenario data used by the claims -/

/-- C4: two candidate outcomes tied at the maximum odds; the later one
(greater `observed_at`, greater venue) comes first in market order. -/
def oLate : Outcome := ⟨"Yes", 2, "b", none, 10⟩

def oEarly : Outcome := ⟨"Yes", 2, "a", none, 5⟩

def c4m1 : Market := ⟨"e1", "politics", "X", "binary", [oLate], none⟩

def c4m2 : Market := ⟨"e2", "politics", "X", "binary", [oEarly], none⟩

def c4Markets : List Market := [c4m1, c4m2]

/-- C5: the Manifold anchor (Yes @ 1.667) and DraftKings betting market
(Yes @ 2.00) of the spec's EV scenario. -/
def manifoldYes : Outcome := ⟨"Yes", 1667 / 1000, "manifold", none, 0⟩

def dkYes : Outcome := ⟨"Yes", 2, "draftkings", none, 0⟩

def manifoldMkt : Market :=
  ⟨"ev1", "politics", "Anchor market", "binary", [manifoldYes], none⟩

def dkMkt : Market :=
  ⟨"ev1", "politics", "Betting market", "binary", [dkYes], none⟩

def evGroups : List (String × List Market) := [("ev1", [manifoldMkt, dkMkt])]

/-- The single opportunity the EV detector actually emits on `evGroups`
(stated here, established by `ev_anchor_scenario`). -/
def evExpected : Opportunity :=
  { type := "EV"
  , event_id := "ev1"
  , event_name := "Betting market"
  , market_type := "binary"
  , expected_profit_pct := 19976 / 1000
  , expected_profit_usd := 998 / 100
  , total_stake := 4994 / 100
  , instructions :=
      [{ venue := "draftkings"
       , outcome := "Yes"
       , stake_usd := 4994 / 100
       , odds_decimal := 2
       , odds_american := "+100"
       , potential_payout := 9988 / 100 }]
  , fees_usd := 0
  , risk := "MEDIUM"
  , expires_in_seconds := 60 }

/-- C6: markets `A` and `B` share `event_id` "E" but have dissimilar
names; `C` (different venue, different `event_id`) matches `A`. -/
def c6A : Market :=
  ⟨"E", "politics", "alpha beta", "binary", [⟨"Yes", 2, "vx", none, 0⟩], none⟩

def c6B : Market :=
  ⟨"E", "politics", "zz qq", "binary", [⟨"Yes", 2, "vy", none, 0⟩], none⟩

def c6C : Market :=
  ⟨"F", "politics", "alpha beta", "binary", [⟨"Yes", 2, "vy", none, 0⟩], none⟩

def c6Markets : List Market := [c6A, c6B, c6C]

/-- C6 witness: a lone market in no merged group. -/
def c6Solo : Market :=
  ⟨"solo", "sports", "Lakers vs Celtics", "moneyline",
    [⟨"Lakers", 2, "draftkings", none, 0⟩], none⟩

/-- C7: event names on which `SequenceMatcher.ratio` is order-dependent
(`ratio(A,B) = 7/11`, `ratio(B,A) = 9/22`), tuned so the combined
similarity straddles the `0.45` threshold. -/
def c7m1 : Market :=
  ⟨"p1", "politics", "aaaaaxcccccbbbbb aoc", "binary",
    [⟨"Yes", 2, "v1", none, 0⟩], none⟩

def c7m2 : Market :=
  ⟨"p2", "politics", "bbbbbaaaaaccccc aoc 2024", "binary",
    [⟨"Yes", 2, "v2", none, 0⟩], none⟩

/-- C7 witness: same-name markets from different venues. -/
def c7wA : Market :=
  ⟨"w1", "politics", "gamma delta", "binary", [⟨"Yes", 2, "va", none, 0⟩], none⟩

def c7wB : Market :=
  ⟨"w2", "politics", "gamma delta", "binary", [⟨"Yes", 2, "vb", none, 0⟩], none⟩

def keysOf (d : List (String × List ℕ)) : List String := d.map Prod.fst

/-! ### Support lemmas for the numeric core -/

theorem mapImplied_ok : ∀ (odds : List ℚ), (∀ o ∈ odds, 1 < o) →
    mapImplied odds = .ok (odds.map fun o => 1 / o)
  | [], _ => rfl
  | o :: t, h => by
    have h1 : ¬ o ≤ 1 := not_le.mpr (h o (List.mem_cons_self o t))
    have ih := mapImplied_ok t (fun x hx => h x (List.mem_cons_of_mem o hx))
    simp only [mapImplied, calculateImpliedProbability, if_neg h1, ih, List.map_cons]
    rfl

theorem pyRound_sub_le (x : ℚ) : |(pyRound x : ℚ) - x| ≤ 1 / 2 := by
  unfold pyRound
  have h0 : (0 : ℚ) ≤ x - ⌊x⌋ := by have := Int.floor_le x; linarith
  have h1 : x - ⌊x⌋ < 1 := by have := Int.lt_floor_add_one x; linarith
  split_ifs with hA hB hC
  · rw [abs_le]; constructor <;> linarith
  · push_cast; rw [abs_le]; constructor <;> linarith
  · have he : x - ⌊x⌋ = 1 / 2 := le_antisymm (not_lt.mp hB) (not_lt.mp hA)
    rw [abs_le]; constructor <;> linarith
  · have he : x - ⌊x⌋ = 1 / 2 := le_antisymm (not_lt.mp hB) (not_lt.mp hA)
    push_cast; rw [abs_le]; constructor <;> linarith

theorem pyRound_intCast (n : ℤ) : pyRound (n : ℚ) = n := by
  norm_num [pyRound, Int.floor_intCast]

theorem round2_sub_le (x : ℚ) : |round2 x - x| ≤ 1 / 200 := by
  have h := pyRound_sub_le (100 * x)
  unfold round2
  have he : (pyRound (100 * x) : ℚ) / 100 - x =
      ((pyRound (100 * x) : ℚ) - 100 * x) / 100 := by ring
  rw [he, abs_div]
  rw [abs_of_pos (by norm_num : (0 : ℚ) < 100)]
  linarith

theorem sum_map_sub_le (f g : ℚ → ℚ) (ε : ℚ) : ∀ (l : List ℚ),
    (∀ x ∈ l, |f x - g x| ≤ ε) →
    |(l.map f).sum - (l.map g).sum| ≤ l.length * ε
  | [], _ => by simp
  | x :: t, h => by
    have hx := h x (List.mem_cons_self x t)
    have ht := sum_map_sub_le f g ε t (fun y hy => h y (List.mem_cons_of_mem x hy))
    simp only [List.map_cons, List.sum_cons, List.length_cons]
    have he : f x + (t.map f).sum - (g x + (t.map g).sum) =
        (f x - g x) + ((t.map f).sum - (t.map g).sum) := by ring
    rw [he]
    calc |(f x - g x) + ((t.map f).sum - (t.map g).sum)|
        ≤ |f x - g x| + |(t.map f).sum - (t.map g).sum| := abs_add _ _
      _ ≤ ε + t.length * ε := add_le_add hx ht
      _ = (t.length + 1) * ε := by ring
      _ = ((t.length + 1 : ℕ) : ℚ) * ε := by push_cast; ring

theorem sum_map_linear (c s : ℚ) : ∀ (l : List ℚ),
    (l.map fun p => c * p / s).sum = c * l.sum / s
  | [] => by simp
  | x :: t => by
    simp only [List.map_cons, List.sum_cons, sum_map_linear c s t]
    ring

theorem sum_map_scale (c : ℚ) : ∀ (l : List ℚ),
    (l.map fun x => x * c).sum = l.sum * c
  | [] => by simp
  | x :: t => by
    simp only [List.map_cons, List.sum_cons, sum_map_scale c t]
    ring

/-- Shape of `calculate_stakes` once the input validation has passed. -/
theorem calculateStakes_shape (odds : List ℚ) (C fee : ℚ)
    (h2 : 2 ≤ odds.length) (ho : ∀ o ∈ odds, 1 < o) :
    calculateStakes odds C fee =
      (let probs := odds.map fun o => 1 / o
       let stakes := probs.map fun p => round2 (C * p / probs.sum)
       if C < stakes.sum then
         if stakes.sum = 0 then .error .zeroDivisionError
         else pure (mkStakeSizing odds
           (stakes.map fun s => round2 (s * (C / stakes.sum))) fee)
       else pure (mkStakeSizing odds stakes fee)) := by
  unfold calculateStakes
  rw [if_neg (not_lt.mpr h2), mapImplied_ok odds ho]
  rfl

/-- After validation, `detect_arbitrage` returns exactly the result the
spec formulas describe. -/
theorem detectArbitrage_spec_eq (odds : List ℚ) (fee : ℚ)
    (h2 : 2 ≤ odds.length) (ho : ∀ o ∈ odds, 1 < o) :
    detectArbitrage odds fee = .ok (specArbitrageResult odds fee) := by
  unfold detectArbitrage
  rw [if_neg (not_lt.mpr h2), mapImplied_ok odds ho]
  rfl

theorem impliedSum_pos (odds : List ℚ) (h2 : 2 ≤ odds.length)
    (ho : ∀ o ∈ odds, 1 < o) : 0 < (odds.map fun o => 1 / o).sum := by
  apply List.sum_pos
  · intro p hp
    obtain ⟨o, ho', rfl⟩ := List.mem_map.mp hp
    exact one_div_pos.mpr (lt_trans one_pos (ho o ho'))
  · intro hnil
    rw [← List.length_eq_zero] at hnil
    rw [List.length_map] at hnil
    omega

/-- Main workhorse for C2/C10: with nonnegative capital and at least two
valid odds, `calculate_stakes` returns normally and the stake sum is
within half a cent per outcome of the capital. -/
theorem calculateStakes_ok_close (odds : List ℚ) (C fee : ℚ)
    (h2 : 2 ≤ odds.length) (ho : ∀ o ∈ odds, 1 < o) (hC : 0 ≤ C) :
    isOkE (calculateStakes odds C fee) = true ∧
    |stakesSumOf (calculateStakes odds C fee) - C| ≤ odds.length * (1 / 200) := by
  have hS : 0 < (odds.map fun o => 1 / o).sum := impliedSum_pos odds h2 ho
  rw [calculateStakes_shape odds C fee h2 ho]
  simp only []
  set probs := odds.map fun o => 1 / o with hprobs
  set stakes := probs.map fun p => round2 (C * p / probs.sum) with hstakes
  have hlen : stakes.length = odds.length := by
    rw [hstakes, List.length_map, hprobs, List.length_map]
  have hsum_u : (probs.map fun p => C * p / probs.sum).sum = C := by
    rw [sum_map_linear]
    field_simp
  have hclose1 : |stakes.sum - C| ≤ odds.length * (1 / 200) := by
    have h := sum_map_sub_le (fun p => round2 (C * p / probs.sum))
      (fun p => C * p / probs.sum) (1 / 200) probs
      (fun x _ => round2_sub_le _)
    rw [hsum_u] at h
    rw [hstakes]
    calc |(probs.map fun p => round2 (C * p / probs.sum)).sum - C|
        ≤ probs.length * (1 / 200) := h
      _ = odds.length * (1 / 200) := by rw [hprobs, List.length_map]
  by_cases hTC : C < stakes.sum
  · have hT0 : stakes.sum ≠ 0 := (lt_of_le_of_lt hC hTC).ne'
    rw [if_pos hTC, if_neg hT0]
    refine ⟨rfl, ?_⟩
    have hsum2 : (stakes.map fun s => s * (C / stakes.sum)).sum = C := by
      rw [sum_map_scale]
      field_simp
    have h := sum_map_sub_le (fun s => round2 (s * (C / stakes.sum)))
      (fun s => s * (C / stakes.sum)) (1 / 200) stakes
      (fun x _ => round2_sub_le _)
    rw [hsum2] at h
    show |(mkStakeSizing odds (stakes.map fun s => round2 (s * (C / stakes.sum))) fee).stakes.sum - C| ≤ _
    have hfield : (mkStakeSizing odds
        (stakes.map fun s => round2 (s * (C / stakes.sum))) fee).stakes =
        stakes.map fun s => round2 (s * (C / stakes.sum)) := rfl
    rw [hfield]
    calc |(stakes.map fun s => round2 (s * (C / stakes.sum))).sum - C|
        ≤ stakes.length * (1 / 200) := h
      _ = odds.length * (1 / 200) := by rw [hlen]
  · rw [if_neg hTC]
    exact ⟨rfl, hclose1⟩

/-! ### Claim theorems: numeric core -/

/-- C1: for at least two odds, each `> 1`, and any fee `f`,
`detect_arbitrage` reports an arbitrage iff `Σ 1/oᵢ < 1 − f/100`; the
profit percentage is `((1 − f/100) − Σ 1/oᵢ)·100` in that case and `0`
otherwise. -/
theorem detect_arbitrage_soundness (odds : List ℚ) (fee : ℚ)
    (h2 : 2 ≤ odds.length) (ho : ∀ o ∈ odds, 1 < o) :
    detectArbitrage odds fee = .ok (specArbitrageResult odds fee) ∧
    ((specArbitrageResult odds fee).is_arbitrage = true ↔
      impliedSum odds < 1 - fee / 100) ∧
    ((specArbitrageResult odds fee).is_arbitrage = true →
      (specArbitrageResult odds fee).profit_pct =
        ((1 - fee / 100) - impliedSum odds) * 100) ∧
    ((specArbitrageResult odds fee).is_arbitrage = false →
      (specArbitrageResult odds fee).profit_pct = 0) := by
  refine ⟨detectArbitrage_spec_eq odds fee h2 ho, ?_, ?_, ?_⟩
  · simp [specArbitrageResult, specThreshold]
  · intro h
    simp only [specArbitrageResult, decide_eq_true_eq] at h ⊢
    rw [if_pos h]
    unfold specThreshold
    ring
  · intro h
    simp only [specArbitrageResult, decide_eq_false_iff_not] at h ⊢
    rw [if_neg h]

/-- Witness for C1 at odds `[3, 3]`, fee `0`. -/
theorem detect_arbitrage_soundness_witness :
    detectArbitrage [3, 3] 0 = .ok (specArbitrageResult [3, 3] 0) ∧
    ((specArbitrageResult [3, 3] 0).is_arbitrage = true ↔
      impliedSum [3, 3] < 1 - 0 / 100) ∧
    ((specArbitrageResult [3, 3] 0).is_arbitrage = true →
      (specArbitrageResult [3, 3] 0).profit_pct =
        ((1 - 0 / 100) - impliedSum [3, 3]) * 100) ∧
    ((specArbitrageResult [3, 3] 0).is_arbitrage = false →
      (specArbitrageResult [3, 3] 0).profit_pct = 0) :=
  detect_arbitrage_soundness [3, 3] 0 (by decide) (by decide)

/-- C2 (amended): with capital `C ≥ 0` the stakes always come back, and
their sum is within `0.005·n` of `C` (the frozen claim `Σ stakes ≤ C`
fails; see the counterexample). -/
theorem stake_conservation (odds : List ℚ) (C fee : ℚ)
    (h2 : 2 ≤ odds.length) (ho : ∀ o ∈ odds, 1 < o) (hC : 0 ≤ C) :
    isOkE (calculateStakes odds C fee) = true ∧
    |stakesSumOf (calculateStakes odds C fee) - C| ≤ odds.length * (1 / 200) :=
  calculateStakes_ok_close odds C fee h2 ho hC

/-- Witness for C2 at odds `[2, 2]`, capital `1000`, fee `0`. -/
theorem stake_conservation_witness :
    isOkE (calculateStakes [2, 2] 1000 0) = true ∧
    |stakesSumOf (calculateStakes [2, 2] 1000 0) - 1000| ≤
      ([2, 2] : List ℚ).length * (1 / 200) :=
  stake_conservation [2, 2] 1000 0 (by decide) (by decide) (by norm_num)

/-- Counterexample to C2 as frozen: at odds `[2, 2]` and capital
`C = 0.035` the rounded-and-rescaled stakes are `[0.02, 0.02]`, whose sum
`0.04` exceeds `C`, and the relative error `1/7` is not below `0.01·n`. -/
theorem stake_conservation_counterexample :
    stakesSumOf (calculateStakes [2, 2] (7 / 200) 0) = 1 / 25 ∧
    ¬ ((1 : ℚ) / 25 ≤ 7 / 200) ∧
    ¬ (|(1 : ℚ) / 25 - 7 / 200| / (7 / 200) < (1 / 100) * 2) := by
  refine ⟨by decide, by norm_num, ?_⟩
  norm_num [abs_of_nonneg]

/-- C3 (amended): the American-odds round trip is the identity exactly on
`[100, 10000]` and `[-10000, -101]`; it fails on `0 < |a| < 100` and at
`a = -100` (see the counterexample). -/
theorem american_round_trip (a : ℤ)
    (h : 100 ≤ a ∧ a ≤ 10000 ∨ -10000 ≤ a ∧ a ≤ -101) :
    roundTripAmerican (a : ℚ) = .ok a := by
  unfold roundTripAmerican americanToDecimal
  rcases h with ⟨h1, _⟩ | ⟨_, h2⟩
  · have h1q : (100 : ℚ) ≤ (a : ℚ) := by exact_mod_cast h1
    have ha : (0 : ℚ) < (a : ℚ) := by linarith
    rw [if_pos ha]
    show decimalToAmerican (1 + (a : ℚ) / 100) = .ok a
    unfold decimalToAmerican
    have h2d : (2 : ℚ) ≤ 1 + (a : ℚ) / 100 := by linarith
    rw [if_pos h2d]
    have he : ((1 : ℚ) + (a : ℚ) / 100 - 1) * 100 = (a : ℚ) := by ring
    rw [he, pyRound_intCast]
  · have ha2 : (a : ℚ) ≤ -101 := by exact_mod_cast h2
    have hna : ¬ (0 : ℚ) < (a : ℚ) := by linarith
    have ha0 : ¬ (a : ℚ) = 0 := by intro h; rw [h] at ha2; norm_num at ha2
    rw [if_neg hna, if_neg ha0]
    show decimalToAmerican (1 + 100 / |(a : ℚ)|) = .ok a
    have habs : |(a : ℚ)| = -(a : ℚ) := abs_of_neg (by linarith)
    unfold decimalToAmerican
    have hpos : (0 : ℚ) < -(a : ℚ) := by linarith
    have hlt : 1 + 100 / |(a : ℚ)| < 2 := by
      rw [habs]
      have : (100 : ℚ) / (-(a : ℚ)) < 1 := (div_lt_one hpos).mpr (by linarith)
      linarith
    rw [if_neg (not_le.mpr hlt)]
    have hgt : (0 : ℚ) < 100 / |(a : ℚ)| := by rw [habs]; positivity
    have hne1 : ¬ (1 : ℚ) + 100 / |(a : ℚ)| = 1 := by linarith
    rw [if_neg hne1]
    have he : -100 / ((1 : ℚ) + 100 / |(a : ℚ)| - 1) = (a : ℚ) := by
      rw [habs]
      field_simp
    rw [he, pyRound_intCast]

/-- Witness for C3 (amended) at `a = 110` and `a = -110`. -/
theorem american_round_trip_witness :
    roundTripAmerican ((110 : ℤ) : ℚ) = .ok 110 ∧
    roundTripAmerican ((-110 : ℤ) : ℚ) = .ok (-110) :=
  ⟨american_round_trip 110 (Or.inl (by norm_num)),
   american_round_trip (-110) (Or.inr (by norm_num))⟩

/-- Counterexample to C3 as frozen: `a = 50` is nonzero and in
`[-10000, 10000]`, but the round trip returns `-200`, not `50` (and
`a = -100` returns `+100`). -/
theorem american_round_trip_counterexample :
    roundTripAmerican 50 = .ok (-200) ∧
    roundTripAmerican (-100) = .ok 100 ∧ ((-200 : ℤ) ≠ 50) := by
  refine ⟨by rfl, by rfl, by decide⟩

/-- C8 (amended): only `probability_to_decimal` validates its input
(`ValueError` outside `(0,1)`); `decimal_to_probability` and
`decimal_to_american` do not test `d ≤ 1` and return normally except for
the division-by-zero points `d = 0` resp. `d = 1`. -/
theorem odds_conversion_errors (d p : ℚ) :
    (d ≠ 0 → decimalToProbability d = .ok (1 / d)) ∧
    decimalToProbability 0 = .error .zeroDivisionError ∧
    (d ≠ 1 → decimalToAmerican d =
      .ok (if 2 ≤ d then pyRound ((d - 1) * 100) else pyRound (-100 / (d - 1)))) ∧
    decimalToAmerican 1 = .error .zeroDivisionError ∧
    (0 < p → p < 1 → probabilityToDecimal p = .ok (1 / p)) ∧
    (p ≤ 0 ∨ 1 ≤ p → probabilityToDecimal p = .error .valueError) := by
  refine ⟨?_, by decide, ?_, by decide, ?_, ?_⟩
  · intro hd
    rw [decimalToProbability, if_neg hd]
  · intro hd
    unfold decimalToAmerican
    by_cases h2 : 2 ≤ d
    · rw [if_pos h2, if_pos h2]
    · rw [if_neg h2, if_neg hd, if_neg h2]
  · intro h0 h1
    rw [probabilityToDecimal, if_neg]
    push_neg
    exact ⟨h0, h1⟩
  · intro h
    rw [probabilityToDecimal, if_pos h]

/-- Witness for C8 (amended) at `d = 3`, `p = 1/2` and `p = 2`. -/
theorem odds_conversion_errors_witness :
    decimalToProbability 3 = .ok (1 / 3) ∧
    probabilityToDecimal (1 / 2) = .ok 2 ∧
    probabilityToDecimal 2 = .error .valueError :=
  ⟨(odds_conversion_errors 3 (1 / 2)).1 (by norm_num),
   by
    have h := (odds_conversion_errors 3 (1 / 2)).2.2.2.2.1 (by norm_num) (by norm_num)
    rw [h]
    norm_num,
   (odds_conversion_errors 3 2).2.2.2.2.2 (Or.inr (by norm_num))⟩

/-- Counterexample to C8 as frozen: `decimal_to_probability(0.5)` and
`decimal_to_american(0.5)` return normally although `0.5 ≤ 1`. -/
theorem odds_conversion_errors_counterexample :
    decimalToProbability (1 / 2) = .ok 2 ∧
    decimalToAmerican (1 / 2) = .ok 200 := by
  refine ⟨by decide, by decide⟩

/-- C9: when the fee-adjusted net odds `b = d·(1 − f/100) − 1` are `≤ 0`,
the Kelly fraction is exactly `0` (the division is never reached), and
the result is nonnegative for all inputs. -/
theorem kelly_nonneg (d p fee : ℚ) :
    (d * (1 - fee / 100) - 1 ≤ 0 → calculateKellyFraction d p fee = 0) ∧
    0 ≤ calculateKellyFraction d p fee := by
  constructor
  · intro h
    simp [calculateKellyFraction, h]
  · unfold calculateKellyFraction
    simp only []
    split_ifs with h
    · exact le_refl 0
    · exact le_max_left 0 _

/-- Witness for C9 at `(d, p, f) = (1/2, 0, 0)` and `(2, 3/5, 0)`. -/
theorem kelly_nonneg_witness :
    ((1 : ℚ) / 2 * (1 - 0 / 100) - 1 ≤ 0) ∧
    calculateKellyFraction (1 / 2) 0 0 = 0 ∧
    0 ≤ calculateKellyFraction 2 (3 / 5) 0 :=
  ⟨by norm_num, (kelly_nonneg (1 / 2) 0 0).1 (by norm_num),
   (kelly_nonneg 2 (3 / 5) 0).2⟩

/-- C10 (amended): given odds all `> 1` and nonnegative capital,
`detect_arbitrage` and `calculate_stakes` raise `ValueError` exactly when
fewer than two odds are supplied, and return normally otherwise.  (For
negative capital `calculate_stakes` can raise `ZeroDivisionError` even
with two odds; see the counterexample.) -/
theorem raise_iff_short_list (odds : List ℚ) (C fee : ℚ)
    (ho : ∀ o ∈ odds, 1 < o) (hC : 0 ≤ C) :
    (detectArbitrage odds fee = .error .valueError ↔ odds.length < 2) ∧
    (calculateStakes odds C fee = .error .valueError ↔ odds.length < 2) ∧
    (2 ≤ odds.length →
      isOkE (detectArbitrage odds fee) = true ∧
      isOkE (calculateStakes odds C fee) = true) := by
  by_cases hlen : odds.length < 2
  · refine ⟨?_, ?_, ?_⟩
    · rw [detectArbitrage, if_pos hlen]
      simp [hlen]
    · rw [calculateStakes, if_pos hlen]
      simp [hlen]
    · intro h; omega
  · have h2 : 2 ≤ odds.length := not_lt.mp hlen
    have hd := detectArbitrage_spec_eq odds fee h2 ho
    have hs := calculateStakes_ok_close odds C fee h2 ho hC
    refine ⟨?_, ?_, ?_⟩
    · rw [hd]
      simp [hlen]
    · constructor
      · intro h
        rw [h] at hs
        simp [isOkE] at hs
      · intro h; omega
    · intro _
      refine ⟨?_, hs.1⟩
      rw [hd]
      rfl

/-- Witness for C10 at odds `[2, 2]`, capital `1`, fee `0`. -/
theorem raise_iff_short_list_witness :
    (detectArbitrage [2, 2] 0 = .error .valueError ↔
      ([2, 2] : List ℚ).length < 2) ∧
    (calculateStakes [2, 2] 1 0 = .error .valueError ↔
      ([2, 2] : List ℚ).length < 2) ∧
    (2 ≤ ([2, 2] : List ℚ).length →
      isOkE (detectArbitrage [2, 2] 0) = true ∧
      isOkE (calculateStakes [2, 2] 1 0) = true) :=
  raise_iff_short_list [2, 2] 1 0 (by decide) (by norm_num)

/-- Counterexample to C10 as frozen: with two valid odds but capital
`-0.004`, all stakes round to zero, the rescale guard fires, and Python's
`total_capital / total_stake` raises `ZeroDivisionError` — the function
does not "return a result and raise nothing". -/
theorem raise_iff_short_list_counterexample :
    calculateStakes [2, 2] (-1 / 250) 0 = .error .zeroDivisionError := by
  decide

/-! ### C4: best-odds tie-breaking -/

/-- C4 (amended): Python's `max(outcomes, key=odds_decimal)` picks the
*first* outcome in candidate order attaining the maximal odds — position
in the list, not `observed_at` or venue, breaks ties. -/
theorem best_odds_first_maximal (b : Outcome) (l : List Outcome) :
    ∃ l1 l2, b :: l = l1 ++ pyMaxByOdds b l :: l2 ∧
      (∀ x ∈ b :: l, x.odds_decimal ≤ (pyMaxByOdds b l).odds_decimal) ∧
      (∀ x ∈ l1, x.odds_decimal < (pyMaxByOdds b l).odds_decimal) := by
  induction l generalizing b with
  | nil =>
    refine ⟨[], [], rfl, ?_, ?_⟩
    · intro x hx
      rcases List.mem_singleton.mp hx with h
      exact le_of_eq (congrArg Outcome.odds_decimal h)
    · intro x hx
      cases hx
  | cons o rest ih =>
    simp only [pyMaxByOdds]
    by_cases hbo : b.odds_decimal < o.odds_decimal
    · rw [if_pos hbo]
      obtain ⟨l1, l2, hdec, hub, hlt⟩ := ih o
      refine ⟨b :: l1, l2, ?_, ?_, ?_⟩
      · rw [List.cons_append, ← hdec]
      · intro x hx
        rcases List.mem_cons.mp hx with h | hx'
        · rw [h]
          exact le_trans (le_of_lt hbo) (hub o (List.mem_cons_self o rest))
        · exact hub x hx'
      · intro x hx
        rcases List.mem_cons.mp hx with h | hx'
        · rw [h]
          exact lt_of_lt_of_le hbo (hub o (List.mem_cons_self o rest))
        · exact hlt x hx'
    · rw [if_neg hbo]
      obtain ⟨l1, l2, hdec, hub, hlt⟩ := ih b
      cases l1 with
      | nil =>
        simp only [List.nil_append] at hdec
        injection hdec with h1 h2
        refine ⟨[], o :: rest, ?_, ?_, ?_⟩
        · simp only [List.nil_append]
          rw [← h1]
        · intro x hx
          rcases List.mem_cons.mp hx with h | hx'
          · rw [h]
            exact le_of_eq (congrArg Outcome.odds_decimal h1)
          · rcases List.mem_cons.mp hx' with h | hx''
            · rw [h]
              exact le_trans (not_lt.mp hbo)
                (le_of_eq (congrArg Outcome.odds_decimal h1))
            · exact hub x (List.mem_cons_of_mem b hx'')
        · intro x hx
          cases hx
      | cons p l1' =>
        rw [List.cons_append] at hdec
        injection hdec with h1 h2
        have hblt : b.odds_decimal < (pyMaxByOdds b rest).odds_decimal := by
          have hp := hlt p (List.mem_cons_self p l1')
          rw [← h1] at hp
          exact hp
        refine ⟨b :: o :: l1', l2, ?_, ?_, ?_⟩
        · rw [List.cons_append, List.cons_append, ← h2]
        · intro x hx
          rcases List.mem_cons.mp hx with h | hx'
          · rw [h]
            exact hub b (List.mem_cons_self b rest)
          · rcases List.mem_cons.mp hx' with h | hx''
            · rw [h]
              exact le_trans (not_lt.mp hbo) (hub b (List.mem_cons_self b rest))
            · exact hub x (List.mem_cons_of_mem b hx'')
        · intro x hx
          rcases List.mem_cons.mp hx with h | hx'
          · rw [h]
            exact hblt
          · rcases List.mem_cons.mp hx' with h | hx''
            · rw [h]
              exact lt_of_le_of_lt (not_lt.mp hbo) hblt
            · have hq := hlt x (List.mem_cons_of_mem p hx'')
              exact hq

/-- Witness for C4 (amended) at the two tied outcomes of `c4Markets`. -/
theorem best_odds_first_maximal_witness :
    ∃ l1 l2, oLate :: [oEarly] = l1 ++ pyMaxByOdds oLate [oEarly] :: l2 ∧
      (∀ x ∈ oLate :: [oEarly],
        x.odds_decimal ≤ (pyMaxByOdds oLate [oEarly]).odds_decimal) ∧
      (∀ x ∈ l1, x.odds_decimal < (pyMaxByOdds oLate [oEarly]).odds_decimal) :=
  best_odds_first_maximal oLate [oEarly]

/-- Counterexample to C4 as frozen: the "yes" candidates are
`[oLate, oEarly]`, tied at odds `2`; the code keeps the first (`oLate`,
`observed_at = 10`, venue `"b"`), not the earliest-observed /
lexicographically-smallest one (`oEarly`). -/
theorem best_odds_choice_counterexample :
    (outcomesByName c4Markets).find? (fun p => p.1 == "yes") =
      some ("yes", [oLate, oEarly]) ∧
    bestOutcomeFor c4Markets "yes" = some oLate ∧
    oLate ≠ oEarly ∧
    oEarly.odds_decimal = oLate.odds_decimal ∧
    oEarly.timestamp < oLate.timestamp := by
  refine ⟨by decide, by decide, by decide, by decide, by decide⟩

/-! ### C7: symmetry of the market-match predicate -/

theorem bool_ext {x y : Bool} (h : x = true ↔ y = true) : x = y := by
  cases x <;> cases y <;> simp_all

theorem beq_comm_str (a b : String) : (a == b) = (b == a) := by
  apply bool_ext
  simp only [beq_iff_eq]
  exact eq_comm

theorem venuesOverlap_symm (m1 m2 : Market) :
    venuesOverlap m1 m2 = venuesOverlap m2 m1 := by
  apply bool_ext
  unfold venuesOverlap
  simp only [List.any_eq_true, beq_iff_eq]
  constructor
  · rintro ⟨o, ho, p, hp, he⟩
    exact ⟨p, hp, o, ho, he.symm⟩
  · rintro ⟨o, ho, p, hp, he⟩
    exact ⟨p, hp, o, ho, he.symm⟩

theorem categoriesMatch_symm (c1 c2 : String) :
    categoriesMatch c1 c2 = categoriesMatch c2 c1 := by
  unfold categoriesMatch
  cases ha : (normalizeCategory c1 == "tech") <;>
    cases hb : (normalizeCategory c2 == "tech") <;>
      simp [ha, hb, Bool.and_comm, beq_comm_str]

theorem anyPair_symm (o1 o2 : List String) :
    (o1.any fun x => o2.any fun y =>
        subList x.toList y.toList || subList y.toList x.toList) =
    (o2.any fun x => o1.any fun y =>
        subList x.toList y.toList || subList y.toList x.toList) := by
  apply bool_ext
  simp only [List.any_eq_true, Bool.or_eq_true]
  constructor
  · rintro ⟨x, hx, y, hy, h⟩
    exact ⟨y, hy, x, hx, h.symm⟩
  · rintro ⟨x, hx, y, hy, h⟩
    exact ⟨y, hy, x, hx, h.symm⟩

theorem outcomesCompatible_symm (m1 m2 : Market) :
    outcomesCompatible m1 m2 = outcomesCompatible m2 m1 := by
  unfold outcomesCompatible
  cases hb1 : isBinaryNames (lowerNames m1) <;>
    cases hb2 : isBinaryNames (lowerNames m2) <;>
      simp [hb1, hb2]
  exact anyPair_symm _ _

theorem jaccardScore_comm (s t : Finset String) :
    jaccardScore s t = jaccardScore t s := by
  unfold jaccardScore
  by_cases hs : s.card = 0 <;> by_cases ht : t.card = 0 <;>
    simp [hs, ht, Finset.inter_comm, Finset.union_comm]

theorem calculateSimilarity_symm (t1 t2 : String)
    (hs : seqMatchScore (normalizeText t1).toList (normalizeText t2).toList =
          seqMatchScore (normalizeText t2).toList (normalizeText t1).toList) :
    calculateSimilarity t1 t2 = calculateSimilarity t2 t1 := by
  unfold calculateSimilarity
  simp only []
  rw [hs, jaccardScore_comm (extractEntities t1) (extractEntities t2),
    jaccardScore_comm ((wordsOf (normalizeText t1)).toFinset)
      ((wordsOf (normalizeText t2)).toFinset)]

/-- C7 (amended): `markets_match` is symmetric for every pair of markets
whose normalized event names get the same `SequenceMatcher.ratio` in
both argument orders; the venue-disjointness, category-compatibility and
outcome-compatibility components are unconditionally symmetric.  (The
ratio itself is order-dependent, which breaks full symmetry: see the
counterexample.) -/
theorem markets_match_symm (m1 m2 : Market) (thr : ℚ)
    (hs : seqMatchScore (normalizeText m1.event_name).toList
            (normalizeText m2.event_name).toList =
          seqMatchScore (normalizeText m2.event_name).toList
            (normalizeText m1.event_name).toList) :
    marketsMatch m1 m2 thr = marketsMatch m2 m1 thr := by
  unfold marketsMatch
  rw [venuesOverlap_symm, categoriesMatch_symm, outcomesCompatible_symm,
    calculateSimilarity_symm m1.event_name m2.event_name hs]

/-- Witness for C7 (amended) at two same-named markets. -/
theorem markets_match_symm_witness :
    marketsMatch c7wA c7wB (45 / 100) = marketsMatch c7wB c7wA (45 / 100) :=
  markets_match_symm c7wA c7wB (45 / 100) (by decide)

set_option maxRecDepth 8000 in
/-- Counterexample to C7 as frozen: with the default threshold `0.45`,
`markets_match(c7m1, c7m2)` holds but `markets_match(c7m2, c7m1)` does
not — the sequence-matcher component is `7/11` one way and `9/22` the
other, giving combined similarities `199/440 ≥ 0.45 > 179/440`. -/
theorem markets_match_asymmetric_counterexample :
    marketsMatch c7m1 c7m2 (45 / 100) = true ∧
    marketsMatch c7m2 c7m1 (45 / 100) = false := by
  refine ⟨by decide, by decide⟩

/-! ### C5: the EV anchor scenario -/

/-- C5 (amended): on the spec's scenario (Manifold Yes @ 1.667 anchor,
DraftKings Yes @ 2.00, zero fees, capital 1000) the detector emits
exactly one EV opportunity — but with `ev_pct = 19.976` (the anchor
probability is `1/1.667`, not `0.60`) and quarter-Kelly stake `$49.94`
(kelly = `2·(1/1.667) − 1 ≈ 0.1998`, not `0.40`); risk is `MEDIUM`. -/
theorem ev_anchor_scenario :
    findEvOpportunities 0 evGroups MIN_EV_PCT DEFAULT_STAKE_USD =
      [evExpected] ∧
    evExpected.expected_profit_pct = 19976 / 1000 ∧
    evExpected.total_stake = 4994 / 100 ∧
    evExpected.risk = "MEDIUM" := by
  refine ⟨by decide, by decide,
    by decide, by decide⟩

/-- Counterexample to C5 as frozen: the single emitted opportunity has
`ev_pct = 19.976 ≠ 20.0` and stake `$49.94 ≠ $100.00`. -/
theorem ev_anchor_scenario_counterexample :
    ((findEvOpportunities 0 evGroups MIN_EV_PCT DEFAULT_STAKE_USD).map
        (fun o => (o.expected_profit_pct, o.total_stake, o.risk))) =
      [(19976 / 1000, 4994 / 100, "MEDIUM")] ∧
    (19976 / 1000 : ℚ) ≠ 20 ∧ (4994 / 100 : ℚ) ≠ 100 := by
  refine ⟨by decide, by norm_num, by norm_num⟩

/-! ### C6: which markets survive into the matcher's output -/

theorem dictGet_dictInsert_self : ∀ (d : List (String × List ℕ)) (k : String)
    (v : List ℕ), dictGet (dictInsert d k v) k = some v
  | [], k, v => by simp [dictInsert, dictGet]
  | (k', v') :: tl, k, v => by
    by_cases h : (k' == k) = true
    · simp [dictInsert, dictGet, h]
    · simp only [Bool.not_eq_true] at h
      simp [dictInsert, dictGet, h, dictGet_dictInsert_self tl k v]

theorem dictGet_dictInsert_ne : ∀ (d : List (String × List ℕ))
    (k k'' : String) (v : List ℕ), k'' ≠ k →
    dictGet (dictInsert d k v) k'' = dictGet d k''
  | [], k, k'', v, h => by
    have hb : (k == k'') = false := beq_eq_false_iff_ne.mpr (Ne.symm h)
    simp [dictInsert, dictGet, hb]
  | (k', v') :: tl, k, k'', v, h => by
    by_cases hk : (k' == k) = true
    · have hk' : k' = k := beq_iff_eq.mp hk
      have hne : (k' == k'') = false := by
        rw [hk']
        exact beq_eq_false_iff_ne.mpr (Ne.symm h)
      simp [dictInsert, dictGet, hk, hne]
    · simp only [Bool.not_eq_true] at hk
      simp [dictInsert, dictGet, hk, dictGet_dictInsert_ne tl k k'' v h]

theorem dictGet_addToGroups_self : ∀ (g : List (String × List ℕ))
    (k : String) (i : ℕ),
    dictGet (addToGroups g k i) k = some (((dictGet g k).getD []) ++ [i])
  | [], k, i => by simp [addToGroups, dictGet]
  | (k', l) :: tl, k, i => by
    by_cases h : (k' == k) = true
    · simp [addToGroups, dictGet, h]
    · simp only [Bool.not_eq_true] at h
      simp [addToGroups, dictGet, h, dictGet_addToGroups_self tl k i]

theorem dictGet_addToGroups_ne : ∀ (g : List (String × List ℕ))
    (k k'' : String) (i : ℕ), k'' ≠ k →
    dictGet (addToGroups g k i) k'' = dictGet g k''
  | [], k, k'', i, h => by
    have hb : (k == k'') = false := beq_eq_false_iff_ne.mpr (Ne.symm h)
    simp [addToGroups, dictGet, hb]
  | (k', l) :: tl, k, k'', i, h => by
    by_cases hk : (k' == k) = true
    · have hk' : k' = k := beq_iff_eq.mp hk
      have hne : (k' == k'') = false := by
        rw [hk']
        exact beq_eq_false_iff_ne.mpr (Ne.symm h)
      simp [addToGroups, dictGet, hk, hne]
    · simp only [Bool.not_eq_true] at hk
      simp [addToGroups, dictGet, hk, dictGet_addToGroups_ne tl k k'' i h]

theorem buildFold_mem (ms : List Market) : ∀ (is : List ℕ)
    (acc : List (String × List ℕ)) (idx : ℕ),
    ((∃ g, dictGet acc ((getM ms idx).event_id) = some g ∧ idx ∈ g) ∨ idx ∈ is) →
    ∃ g, dictGet (buildFold ms is acc) ((getM ms idx).event_id) = some g ∧ idx ∈ g
  | [], acc, idx, h => by
    rcases h with h | h
    · exact h
    · cases h
  | i :: is, acc, idx, h => by
    rw [buildFold]
    apply buildFold_mem ms is _ idx
    rcases h with ⟨g, hg, hin⟩ | hin
    · left
      by_cases he : (getM ms idx).event_id = (getM ms i).event_id
      · rw [he, dictGet_addToGroups_self]
        refine ⟨_, rfl, ?_⟩
        rw [← he, hg, Option.getD_some]
        exact List.mem_append_left _ hin
      · rw [dictGet_addToGroups_ne _ _ _ _ he]
        exact ⟨g, hg, hin⟩
    · rcases List.mem_cons.mp hin with h1 | h2
      · left
        rw [h1, dictGet_addToGroups_self]
        exact ⟨_, rfl, List.mem_append_right _ (List.mem_singleton.mpr rfl)⟩
      · right
        exact h2

theorem buildGroups_mem (ms : List Market) (idx : ℕ) (h : idx < ms.length) :
    ∃ g, dictGet (buildGroups ms) ((getM ms idx).event_id) = some g ∧
      idx ∈ g :=
  buildFold_mem ms (List.range ms.length) [] idx
    (Or.inr (List.mem_range.mpr h))

theorem keysOf_addToGroups_sub : ∀ (g : List (String × List ℕ)) (k : String)
    (i : ℕ) (k'' : String),
    k'' ∈ keysOf (addToGroups g k i) → k'' ∈ keysOf g ∨ k'' = k
  | [], k, i, k'', h => by
    simp [addToGroups, keysOf] at h
    exact Or.inr h
  | (k', l) :: tl, k, i, k'', h => by
    by_cases hk : (k' == k) = true
    · left
      simpa [addToGroups, keysOf, hk] using h
    · simp only [Bool.not_eq_true] at hk
      simp only [addToGroups, hk, Bool.false_eq_true, if_false, keysOf,
        List.map_cons, List.mem_cons] at h ⊢
      rcases h with h | h
      · exact Or.inl (Or.inl h)
      · rcases keysOf_addToGroups_sub tl k i k'' (by simpa [keysOf] using h)
          with h' | h'
        · exact Or.inl (Or.inr (by simpa [keysOf] using h'))
        · exact Or.inr h'

theorem keysOf_addToGroups_nodup : ∀ (g : List (String × List ℕ))
    (k : String) (i : ℕ),
    (keysOf g).Nodup → (keysOf (addToGroups g k i)).Nodup
  | [], k, i, _ => by simp [addToGroups, keysOf]
  | (k', l) :: tl, k, i, h => by
    simp only [keysOf, List.map_cons, List.nodup_cons] at h
    obtain ⟨hnot, htl⟩ := h
    by_cases hk : (k' == k) = true
    · simp only [addToGroups, hk, if_true, keysOf, List.map_cons,
        List.nodup_cons]
      exact ⟨by simpa [keysOf] using hnot, by simpa [keysOf] using htl⟩
    · simp only [Bool.not_eq_true] at hk
      simp only [addToGroups, hk, Bool.false_eq_true, if_false, keysOf,
        List.map_cons, List.nodup_cons]
      constructor
      · intro hmem
        rcases keysOf_addToGroups_sub tl k i k' hmem with h' | h'
        · exact hnot (by simpa [keysOf] using h')
        · exact (beq_eq_false_iff_ne.mp hk) h'
      · exact keysOf_addToGroups_nodup tl k i (by simpa [keysOf] using htl)

theorem keysOf_buildFold_nodup (ms : List Market) : ∀ (is : List ℕ)
    (acc : List (String × List ℕ)),
    (keysOf acc).Nodup → (keysOf (buildFold ms is acc)).Nodup
  | [], _, h => h
  | i :: is, acc, h =>
    keysOf_buildFold_nodup ms is _ (keysOf_addToGroups_nodup acc _ i h)

theorem buildGroups_keys_nodup (ms : List Market) :
    (keysOf (buildGroups ms)).Nodup :=
  keysOf_buildFold_nodup ms _ [] (by simp [keysOf])

theorem dictGet_mem : ∀ (d : List (String × List ℕ)) (k : String)
    (g : List ℕ), dictGet d k = some g → (k, g) ∈ d
  | [], k, g, h => by simp [dictGet] at h
  | (k', v') :: tl, k, g, h => by
    by_cases hk : (k' == k) = true
    · have hk' : k' = k := beq_iff_eq.mp hk
      have hv : v' = g := by
        rw [dictGet, if_pos hk] at h
        exact Option.some.inj h
      rw [← hk', ← hv]
      exact List.mem_cons_self _ _
    · simp only [Bool.not_eq_true] at hk
      rw [dictGet, if_neg (by simp [hk])] at h
      exact List.mem_cons_of_mem _ (dictGet_mem tl k g h)

theorem emitOriginals_preserve (merged : List (List ℕ)) :
    ∀ (entries : List (String × List ℕ)) (d : List (String × List ℕ))
      (k : String), (∀ p ∈ entries, p.1 ≠ k) →
    dictGet (emitOriginals merged entries d) k = dictGet d k
  | [], _, _, _ => rfl
  | p :: rest, d, k, h => by
    simp only [emitOriginals]
    split_ifs with hc
    · exact emitOriginals_preserve merged rest d k
        (fun q hq => h q (List.mem_cons_of_mem p hq))
    · rw [emitOriginals_preserve merged rest _ k
        (fun q hq => h q (List.mem_cons_of_mem p hq))]
      exact dictGet_dictInsert_ne d p.1 k p.2
        (Ne.symm (h p (List.mem_cons_self p rest)))

theorem emitOriginals_lookup (merged : List (List ℕ)) :
    ∀ (entries : List (String × List ℕ)) (d : List (String × List ℕ))
      (k : String) (g : List ℕ),
    (keysOf entries).Nodup → (k, g) ∈ entries →
    (merged.any fun mg => intersects g mg) = false →
    dictGet (emitOriginals merged entries d) k = some g
  | [], _, _, _, _, hmem, _ => absurd hmem (List.not_mem_nil _)
  | p :: rest, d, k, g, hnd, hmem, hpass => by
    simp only [keysOf, List.map_cons, List.nodup_cons] at hnd
    obtain ⟨hknot, hndr⟩ := hnd
    rcases List.mem_cons.mp hmem with he | hm
    · have hrest : ∀ q ∈ rest, q.1 ≠ k := by
        intro q hq he2
        have hkm : k ∈ List.map Prod.fst rest := by
          rw [← he2]
          exact List.mem_map_of_mem Prod.fst hq
        apply hknot
        rw [← he]
        exact hkm
      simp only [emitOriginals, ← he, hpass, Bool.false_eq_true, if_false]
      rw [emitOriginals_preserve merged rest _ k hrest]
      exact dictGet_dictInsert_self d k g
    · simp only [emitOriginals]
      split_ifs with hc
      · exact emitOriginals_lookup merged rest d k g hndr hm hpass
      · exact emitOriginals_lookup merged rest _ k g hndr hm hpass

/-- C6 (amended): an input market `ms[idx]` whose whole `event_id` group
is disjoint from every merged group appears in the output under its
original `event_id` key, together with that group.  (A market whose
`event_id` group merely *touches* a merged group can be dropped
entirely; see the counterexample.) -/
theorem matcher_unmerged_market_kept (ms : List Market) (thr : ℚ)
    (idx : ℕ) (grp : List ℕ)
    (hidx : idx < ms.length)
    (hgrp : dictGet (buildGroups ms) ((getM ms idx).event_id) = some grp)
    (hdisj : ((mergedGroups ms thr).any fun g => intersects grp g) = false) :
    dictGet (findMatchingMarkets ms thr) ((getM ms idx).event_id) =
      some grp ∧ idx ∈ grp := by
  constructor
  · unfold findMatchingMarkets
    exact emitOriginals_lookup (mergedGroups ms thr) (buildGroups ms) _ _ _
      (buildGroups_keys_nodup ms) (dictGet_mem _ _ _ hgrp) hdisj
  · obtain ⟨g, hg, hin⟩ := buildGroups_mem ms idx hidx
    rw [hgrp] at hg
    rw [Option.some.inj hg]
    exact hin

/-- Witness for C6 (amended): a lone sportsbook market stays under its
own `event_id`. -/
theorem matcher_unmerged_market_kept_witness :
    dictGet (findMatchingMarkets [c6Solo] (45 / 100))
      ((getM [c6Solo] 0).event_id) = some [0] ∧ 0 ∈ [0] :=
  matcher_unmerged_market_kept [c6Solo] (45 / 100) 0 [0]
    (by decide) (by decide)
    (by decide)

/-- Counterexample to C6 as frozen: market 1 (`c6B`, event_id "E") is in
no published merged group (`[0, 2]` is the only one), yet it is absent
from the output — its `event_id` group `[0, 1]` was skipped because
market 0 merged cross-venue with market 2. -/
theorem matcher_dropped_market_counterexample :
    findMatchingMarkets c6Markets (45 / 100) =
      [("matched_alpha_beta", [0, 2])] ∧
    (getM c6Markets 1).event_id = "E" ∧
    ¬ (1 ∈ [0, 2]) ∧
    dictGet (findMatchingMarkets c6Markets (45 / 100)) "E" = none := by
  refine ⟨by decide, by decide,
    by decide, by decide⟩

end ArbIntel
